import Mathlib

/-!
Verification of the animation core of the `slidev-addon-animations` repository.

The TypeScript sources are shallowly embedded below.  JavaScript numbers are
modelled as rationals (`ℚ`); IEEE-754 rounding is outside the model.  Where a
JavaScript value can be `NaN`, `Infinity` or `undefined` in a way that is
observable by the embedded functions, this is modelled explicitly (`JFloat`,
`Option`).  JavaScript objects (string-keyed records with insertion order)
are modelled as association lists without duplicate keys, together with
lookup/update operations that mirror property access, property assignment and
`Object.keys`/`Object.assign`.
-/

namespace SA

/-! ## Lerp system (src/utils/lerpSystem.ts) -/

/-- The `Color` interface: `{ r; g; b; a? }`.  Channel values are modelled as
rationals; `a = none` models an `undefined` alpha. -/
structure Color where
  r : ℚ
  g : ℚ
  b : ℚ
  a : Option ℚ
deriving Repr, DecidableEq

/-- Source `numberLerp`: `start + (end - start) * progress`. -/
def numberLerp (s e progress : ℚ) : ℚ :=
  s + (e - s) * progress

/-- JavaScript `Math.round` on a finite value: round half toward positive
infinity, i.e. `⌊x + 1/2⌋`. -/
def jsRound (q : ℚ) : ℤ :=
  ⌊q + 1 / 2⌋

/-- Source `colorLerp`: round each interpolated channel, and set
`a := (both defined) ? lerped : (start.a ?? end.a ?? 1)`.  Note the `a`
property is always assigned (it is `1` when neither side defines it). -/
def colorLerp (s e : Color) (progress : ℚ) : Color :=
  { r := (jsRound (s.r + (e.r - s.r) * progress) : ℚ)
    g := (jsRound (s.g + (e.g - s.g) * progress) : ℚ)
    b := (jsRound (s.b + (e.b - s.b) * progress) : ℚ)
    a := some (match s.a, e.a with
      | some sa, some ea => sa + (ea - sa) * progress
      | some sa, none => sa
      | none, some ea => ea
      | none, none => 1) }

/-- Source `[0-9a-fA-F]`. -/
def isHexDigit (c : Char) : Bool :=
  c.isDigit || ((decide ('a' ≤ c) && decide (c ≤ 'f'))
    || (decide ('A' ≤ c) && decide (c ≤ 'F')))

/-- The JavaScript `\s` class, restricted to the ASCII white space characters
that can occur in the strings handled here. -/
def jsIsSpace (c : Char) : Bool :=
  c = ' ' || c = '\t' || c = '\n' || c = '\r' || c = '\x0b' || c = '\x0c'

/-- Source `String.prototype.toLowerCase` (ASCII case folding). -/
def jsToLower (s : String) : String :=
  String.mk (s.data.map Char.toLower)

/-- Source `String.prototype.trim`. -/
def jsTrim (s : String) : String :=
  String.mk (((s.data.dropWhile jsIsSpace).reverse.dropWhile jsIsSpace).reverse)

/-- The names recognised by `isColorString`. -/
def namedColorNames : List String :=
  ["red", "green", "blue", "white", "black", "transparent", "yellow",
   "cyan", "magenta", "orange", "purple", "pink", "gray", "grey"]

/-- Body of a regex step `\([^)]+\)` applied to the characters after the
opening parenthesis has been consumed: succeeds when at least one
non-`)` character is followed by `)`, capturing those characters. -/
def parenCapture (inner : List Char) : Option (List Char) :=
  let body := inner.takeWhile (fun c => c ≠ ')')
  let tail := inner.dropWhile (fun c => c ≠ ')')
  match body, tail with
  | [], _ => none
  | b, ')' :: _ => some b
  | _, _ => none

/-- One attempt of the regex `rgba?\(([^)]+)\)` at the current position. -/
def rgbAt (cs : List Char) : Option (List Char) :=
  match cs with
  | 'r' :: 'g' :: 'b' :: 'a' :: '(' :: inner => parenCapture inner
  | 'r' :: 'g' :: 'b' :: '(' :: inner => parenCapture inner
  | _ => none

/-- Unanchored scan of the regex `rgba?\(([^)]+)\)` (as used by `parseColor`):
try every start position from the left, returning the first capture. -/
def rgbCapture : List Char → Option (List Char)
  | [] => none
  | c :: rest =>
    match rgbAt (c :: rest) with
    | some b => some b
    | none => rgbCapture rest

/-- Anchored test `^rgba?\s*\([^)]+\)$` (as used by `isColorString`). -/
def rgbAnchoredTest (cs : List Char) : Bool :=
  match cs with
  | 'r' :: 'g' :: 'b' :: rest =>
    let rest1 := match rest with
      | 'a' :: r => r
      | r => r
    (match rest1.dropWhile jsIsSpace with
     | '(' :: inner =>
       match parenCapture inner with
       | some _ =>
         -- the regex is anchored: the `)` must be the last character
         decide (inner.dropWhile (fun c => c ≠ ')') = [')'])
       | none => false
     | _ => false)
  | _ => false

/-- Source `isColorString`: hex test `^#[0-9a-fA-F]{3,8}$`, or the anchored
`rgba?` function syntax, or one of the fixed named colors. -/
def isColorString (s : String) : Bool :=
  (match s.data with
   | '#' :: rest =>
     decide (3 ≤ rest.length) && decide (rest.length ≤ 8) && rest.all isHexDigit
   | _ => false)
  || rgbAnchoredTest s.data
  || namedColorNames.contains (jsToLower s)

/-- A JavaScript `number` as produced by `parseFloat`: finite rationals plus
the `NaN` and signed-infinity values that the rgb-channel handling can see. -/
inductive JFloat
  | nan
  | posInf
  | negInf
  | num (q : ℚ)
deriving Repr, DecidableEq

/-- Source `Number.isNaN`. -/
def JFloat.isNaN : JFloat → Bool
  | .nan => true
  | _ => false

def digitVal (c : Char) : ℕ :=
  c.toNat - 48

def digitsVal (ds : List Char) : ℕ :=
  ds.foldl (fun a c => a * 10 + digitVal c) 0

/-- The exponent part of the `parseFloat` grammar: `[eE][+-]?digits`.  Given
the characters after the `e`/`E`, returns the signed exponent, or `0` when no
digits follow (in which case `parseFloat` ignores the exponent marker). -/
def expVal (cs : List Char) : ℤ :=
  let (sgn, cs1) : ℤ × List Char :=
    match cs with
    | '+' :: r => (1, r)
    | '-' :: r => (-1, r)
    | r => (1, r)
  let ds := cs1.takeWhile Char.isDigit
  if ds = [] then 0 else sgn * (digitsVal ds : ℤ)

/-- JavaScript `parseFloat`: skip leading white space, optional sign,
`Infinity` or a decimal literal (longest valid prefix, trailing garbage
ignored); `NaN` when no prefix parses. -/
def jsParseFloat (s : String) : JFloat :=
  let cs0 := s.data.dropWhile jsIsSpace
  let (sgn, cs) : ℚ × List Char :=
    match cs0 with
    | '+' :: r => (1, r)
    | '-' :: r => (-1, r)
    | r => (1, r)
  match cs with
  | 'I' :: 'n' :: 'f' :: 'i' :: 'n' :: 'i' :: 't' :: 'y' :: _ =>
    if sgn = 1 then JFloat.posInf else JFloat.negInf
  | _ =>
    let intDs := cs.takeWhile Char.isDigit
    let cs1 := cs.dropWhile Char.isDigit
    let (fracDs, cs2) : List Char × List Char :=
      match cs1 with
      | '.' :: r => (r.takeWhile Char.isDigit, r.dropWhile Char.isDigit)
      | _ => ([], cs1)
    if intDs = [] ∧ fracDs = [] then JFloat.nan
    else
      let mant : ℚ := (digitsVal intDs : ℚ) + (digitsVal fracDs : ℚ) / 10 ^ fracDs.length
      let e : ℤ :=
        match cs2 with
        | 'e' :: r => expVal r
        | 'E' :: r => expVal r
        | _ => 0
      JFloat.num (sgn * mant * (10 : ℚ) ^ e)

/-- Source `Math.max(0, Math.min(255, v))` for a non-`NaN` channel value (the `NaN`
case is unreachable in `parseColor`, which has already rejected `NaN`s). -/
def clamp255 : JFloat → ℚ
  | .posInf => 255
  | .negInf => 0
  | .num q => max 0 (min 255 q)
  | .nan => 0

/-- Source `Math.max(0, Math.min(1, v))` for a non-`NaN` alpha value. -/
def clamp01 : JFloat → ℚ
  | .posInf => 1
  | .negInf => 0
  | .num q => max 0 (min 1 q)
  | .nan => 0

def hexDigitVal (c : Char) : ℕ :=
  if c.isDigit then digitVal c
  else if decide (97 ≤ c.toNat) && decide (c.toNat ≤ 102) then c.toNat - 97 + 10
  else if decide (65 ≤ c.toNat) && decide (c.toNat ≤ 70) then c.toNat - 65 + 10
  else 0

/-- Source `parseInt` of a two-hex-digit string. -/
def hexPairVal (c1 c2 : Char) : ℕ :=
  hexDigitVal c1 * 16 + hexDigitVal c2

/-- The named-color table of `parseColor`. -/
def namedColorTable : List (String × Color) :=
  [("red", ⟨255, 0, 0, none⟩), ("green", ⟨0, 255, 0, none⟩),
   ("blue", ⟨0, 0, 255, none⟩), ("white", ⟨255, 255, 255, none⟩),
   ("black", ⟨0, 0, 0, none⟩), ("transparent", ⟨0, 0, 0, some 0⟩),
   ("yellow", ⟨255, 255, 0, none⟩), ("cyan", ⟨0, 255, 255, none⟩),
   ("magenta", ⟨255, 0, 255, none⟩), ("orange", ⟨255, 165, 0, none⟩),
   ("purple", ⟨128, 0, 128, none⟩), ("pink", ⟨255, 192, 203, none⟩),
   ("gray", ⟨128, 128, 128, none⟩), ("grey", ⟨128, 128, 128, none⟩)]

/-- Source `colorStr.startsWith("#")`. -/
def headIsHash (s : String) : Bool :=
  match s.data with
  | '#' :: _ => true
  | _ => false

/-- The channel values of the `rgba?` branch:
`rgbMatch[1].split(",").map(v => parseFloat(v.trim()))`. -/
def rgbValues (body : List Char) : List JFloat :=
  ((String.mk body).splitOn ",").map (fun v => jsParseFloat (jsTrim v))

/-- Source `const hex = colorStr.slice(1)` (the characters after the `#`). -/
def hexPart (s : String) : List Char :=
  s.data.drop 1

/-- Source `parseColor`: hex (`#` + 3/6/8 hex digits), then the `rgba?(...)` scan,
then the named-color table; every other input throws.  Thrown errors are
modelled as `Except.error` with the source's message text. -/
def parseColor (colorStr : String) : Except String Color :=
  if headIsHash colorStr then
    if decide ((hexPart colorStr).length = 3) && (hexPart colorStr).all isHexDigit then
      Except.ok ⟨(hexPairVal ((hexPart colorStr).getD 0 '0') ((hexPart colorStr).getD 0 '0') : ℚ),
        (hexPairVal ((hexPart colorStr).getD 1 '0') ((hexPart colorStr).getD 1 '0') : ℚ),
        (hexPairVal ((hexPart colorStr).getD 2 '0') ((hexPart colorStr).getD 2 '0') : ℚ), none⟩
    else if decide ((hexPart colorStr).length = 6) && (hexPart colorStr).all isHexDigit then
      Except.ok ⟨(hexPairVal ((hexPart colorStr).getD 0 '0') ((hexPart colorStr).getD 1 '0') : ℚ),
        (hexPairVal ((hexPart colorStr).getD 2 '0') ((hexPart colorStr).getD 3 '0') : ℚ),
        (hexPairVal ((hexPart colorStr).getD 4 '0') ((hexPart colorStr).getD 5 '0') : ℚ), none⟩
    else if decide ((hexPart colorStr).length = 8) && (hexPart colorStr).all isHexDigit then
      Except.ok ⟨(hexPairVal ((hexPart colorStr).getD 0 '0') ((hexPart colorStr).getD 1 '0') : ℚ),
        (hexPairVal ((hexPart colorStr).getD 2 '0') ((hexPart colorStr).getD 3 '0') : ℚ),
        (hexPairVal ((hexPart colorStr).getD 4 '0') ((hexPart colorStr).getD 5 '0') : ℚ),
        some ((hexPairVal ((hexPart colorStr).getD 6 '0') ((hexPart colorStr).getD 7 '0') : ℚ) / 255)⟩
    else Except.error ("Invalid hex color: " ++ colorStr)
  else
    match rgbCapture colorStr.data with
    | some body =>
      if decide ((rgbValues body).length < 3) || (rgbValues body).any JFloat.isNaN then
        Except.error ("Invalid rgb color: " ++ colorStr)
      else
        Except.ok ⟨clamp255 ((rgbValues body).getD 0 JFloat.nan),
          clamp255 ((rgbValues body).getD 1 JFloat.nan),
          clamp255 ((rgbValues body).getD 2 JFloat.nan),
          ((rgbValues body).get? 3).map clamp01⟩
    | none =>
      match namedColorTable.lookup (jsToLower colorStr) with
      | some c => Except.ok c
      | none => Except.error ("Unrecognized color: " ++ colorStr)

/-- Decimal digit characters of a natural number (most significant first). -/
def natDigitsRepr (n : ℕ) : String :=
  String.mk (Nat.toDigits 10 n)

/-- The string a JavaScript template literal produces for a number.  Exact for
integers; for a non-integer with a terminating decimal expansion the expansion
is printed (IEEE-754 shortest-round-trip printing of other values is outside
the model and cannot arise in the properties proved here). -/
def jsNumRepr (q : ℚ) : String :=
  if q.den = 1 then
    (if q.num < 0 then "-" else "") ++ natDigitsRepr q.num.natAbs
  else
    match (List.range 64).find? (fun k => (q * (10 : ℚ) ^ (k + 1)).den = 1) with
    | some k =>
      let scaled := (q * (10 : ℚ) ^ (k + 1)).num.natAbs
      let intPart := scaled / 10 ^ (k + 1)
      let fracPart := scaled % 10 ^ (k + 1)
      let fracDigits := Nat.toDigits 10 fracPart
      (if q.num < 0 then "-" else "") ++ natDigitsRepr intPart ++ "." ++
        String.mk (List.replicate (k + 1 - fracDigits.length) '0' ++ fracDigits)
    | none => (if q.num < 0 then "-" else "") ++ natDigitsRepr q.num.natAbs ++ "/" ++ natDigitsRepr q.den

/-- Source `colorToString`: `rgba(...)` when alpha is defined and not `1`, else
`rgb(...)`. -/
def colorToString (color : Color) : String :=
  match color.a with
  | some a =>
    if a = 1 then
      "rgb(" ++ jsNumRepr color.r ++ ", " ++ jsNumRepr color.g ++ ", " ++ jsNumRepr color.b ++ ")"
    else
      "rgba(" ++ jsNumRepr color.r ++ ", " ++ jsNumRepr color.g ++ ", " ++ jsNumRepr color.b ++ ", " ++ jsNumRepr a ++ ")"
  | none =>
    "rgb(" ++ jsNumRepr color.r ++ ", " ++ jsNumRepr color.g ++ ", " ++ jsNumRepr color.b ++ ")"

/-- Source `stringLerp`: blend when both sides look like colors and both parse
(the `try`/`catch` around parsing is the `Except` match); otherwise a discrete
switch at progress `0.5`. -/
def stringLerp (s e : String) (progress : ℚ) : String :=
  if isColorString s && isColorString e then
    match parseColor s, parseColor e with
    | Except.ok sc, Except.ok ec => colorToString (colorLerp sc ec progress)
    | _, _ => if progress < 1 / 2 then s else e
  else
    if progress < 1 / 2 then s else e

/-- Source `AnimatableValue`: `number | string | Color`. -/
inductive AnimatableValue
  | num (q : ℚ)
  | str (s : String)
  | color (c : Color)
deriving Repr, DecidableEq

/-- The dispatch of `getLerpFunction`/`lerp`, branching on the runtime type of
`start`.  Mixed-type operand pairs make the underlying JavaScript produce
`NaN`-valued garbage (or throw inside `stringLerp`); those pairs are outside
the numeric model and are mapped to the unchanged start value.  No property
proved below depends on mixed-type pairs. -/
def lerp (s e : AnimatableValue) (progress : ℚ) : AnimatableValue :=
  match s, e with
  | .num sv, .num ev => .num (numberLerp sv ev progress)
  | .str sv, .str ev => .str (stringLerp sv ev progress)
  | .color sv, .color ev => .color (colorLerp sv ev progress)
  | sv, _ => sv

/-! ## JavaScript records

`AnimatableObject = Record<string, AnimatableValue>` and the per-frame
`updates` record are modelled as association lists in insertion order.
Property access on a key an object may lack yields `undefined`, modelled as
`Option`. -/

/-- An `undefined`-aware value: `none` is JavaScript `undefined` (or a
`NaN`-valued result of lerping `undefined`). -/
abbrev JSVal := Option AnimatableValue

/-- Property read `o[k]` (an object holds at most one binding per key; the
first binding is the binding). -/
def recGet {α : Type} : List (String × α) → String → Option α
  | [], _ => none
  | (k0, v0) :: rest, k => if k0 = k then some v0 else recGet rest k

/-- Property write `o[k] = v`: update the existing binding in place, else
append a new binding (JavaScript insertion order). -/
def recSet {α : Type} : List (String × α) → String → α → List (String × α)
  | [], k, v => [(k, v)]
  | (k0, v0) :: rest, k, v =>
    if k0 = k then (k0, v) :: rest else (k0, v0) :: recSet rest k v

/-- Source `Object.keys`. -/
def recKeys {α : Type} (o : List (String × α)) : List String :=
  o.map (fun p => p.1)

/-- Source `Object.assign(o, updates)`. -/
def recAssign {α : Type} (o updates : List (String × α)) : List (String × α) :=
  updates.foldl (fun acc p => recSet acc p.1 p.2) o

/-! ## Animation engine (src/utils/animationEngine.ts, src/types/animation.ts) -/

/-- Konva-style easing function `(t, b, c, d) => number`. -/
abbrev EasingFunction := ℚ → ℚ → ℚ → ℚ → ℚ

abbrev AnimatableObject := List (String × AnimatableValue)

structure AnimationStep where
  duration : Option ℚ
  easing : Option EasingFunction
  delay : Option ℚ
  properties : AnimatableObject

structure AnimationTarget where
  target : AnimatableObject
  steps : List AnimationStep
  initialState : AnimatableObject

structure ProcessedAnimation where
  target : AnimatableObject
  keys : List String
  startVals : List JSVal
  endVals : List JSVal
  duration : ℚ
  delay : ℚ
  easing : Option EasingFunction
  completed : Bool

structure AnimationBatchUpdate where
  target : AnimatableObject
  updates : List (String × JSVal)

/-- JavaScript array indexing `xs[i]` with a possibly negative index:
`undefined` (`none`) for a negative or out-of-range index. -/
def jsIndex {α : Type} (xs : List α) (i : ℤ) : Option α :=
  if i < 0 then none else xs.get? i.toNat

/-- The `ProcessedAnimation` that `prepareAnimations` pushes for a target
whose step array has an entry at the step index. -/
def mkForwardAnimation (t : AnimationTarget) (step : AnimationStep)
    (defaultDuration : ℚ) (defaultEasing : Option EasingFunction) :
    ProcessedAnimation :=
  let keys := recKeys step.properties
  { target := t.target
    keys := keys
    startVals := keys.map (fun k => recGet t.target k)
    endVals := keys.map (fun k => recGet step.properties k)
    duration := step.duration.getD defaultDuration
    delay := step.delay.getD 0
    easing := match step.easing with
      | some e => some e
      | none => defaultEasing
    completed := false }

/-- Source `prepareAnimations`.  The bounds guard `stepIndex < target.steps.length`
lets a negative index through, and `target.steps[negative]` is `undefined`,
so reading `step.properties` throws a `TypeError` (modelled as
`Except.error`), which propagates out of the `forEach`. -/
def prepareAnimations : List AnimationTarget → ℤ → ℚ → Option EasingFunction →
    Except String (List ProcessedAnimation)
  | [], _, _, _ => Except.ok []
  | t :: rest, stepIndex, defaultDuration, defaultEasing =>
    if stepIndex < (t.steps.length : ℤ) then
      match jsIndex t.steps stepIndex with
      | none =>
        Except.error "TypeError: Cannot read properties of undefined (reading properties)"
      | some step =>
        match prepareAnimations rest stepIndex defaultDuration defaultEasing with
        | Except.error e => Except.error e
        | Except.ok anims =>
          Except.ok (mkForwardAnimation t step defaultDuration defaultEasing :: anims)
    else prepareAnimations rest stepIndex defaultDuration defaultEasing

/-- The cumulative target state of `prepareReverseAnimations`: a copy of
`initialState` with `steps[i].properties` assigned over it for
`i = 0 .. stepIndex` (each application guarded by `i < steps.length`). -/
def cumulativeState (t : AnimationTarget) (stepIndex : ℤ) : AnimatableObject :=
  (t.steps.take (stepIndex + 1).toNat).foldl
    (fun state step => recAssign state step.properties) t.initialState

/-- Source `prepareReverseAnimations`: one animation per target, toward the
cumulative state, always with the default duration, zero delay and the
default easing. -/
def prepareReverseAnimations (targets : List AnimationTarget) (stepIndex : ℤ)
    (defaultDuration : ℚ) (defaultEasing : Option EasingFunction) :
    List ProcessedAnimation :=
  targets.map (fun t =>
    let targetState := cumulativeState t stepIndex
    let keys := recKeys targetState
    { target := t.target
      keys := keys
      startVals := keys.map (fun k => recGet t.target k)
      endVals := keys.map (fun k => recGet targetState k)
      duration := defaultDuration
      delay := 0
      easing := defaultEasing
      completed := false })

/-- Source `applyEasing`: call `easingFn(progress, 0, 1, 1)`, falling back to the
identity when no function is supplied.  (The source also catches a throwing
easing function; embedded easing functions are total, so the `catch` arm is
vacuous here.) -/
def applyEasing (progress : ℚ) (easingFn : Option EasingFunction) : ℚ :=
  match easingFn with
  | none => progress
  | some f => f progress 0 1 1

/-- Source `lerp(startVals[i], endVals[i], eased)` at the `JSVal` level: an
`undefined` operand makes the JavaScript dispatch compute `NaN`-valued
garbage, modelled as `undefined`. -/
def lerpJS (s e : JSVal) (progress : ℚ) : JSVal :=
  match s, e with
  | some sv, some ev => some (lerp sv ev progress)
  | _, _ => none

/-- The first `for` loop of `processAnimationFrame`: build the `updates`
record with the interpolated value of every key. -/
def buildUpdates (anim : ProcessedAnimation) (eased : ℚ) : List (String × JSVal) :=
  (List.range anim.keys.length).foldl
    (fun upd i =>
      match anim.keys.get? i with
      | some key => recSet upd key (lerpJS ((anim.startVals.get? i).join) ((anim.endVals.get? i).join) eased)
      | none => upd)
    []

/-- The completion loop of `processAnimationFrame`: overwrite every key of the
(already pushed) `updates` record with the exact end value. -/
def exactEndUpdates (anim : ProcessedAnimation) (upd : List (String × JSVal)) :
    List (String × JSVal) :=
  (List.range anim.keys.length).foldl
    (fun u i =>
      match anim.keys.get? i with
      | some key => recSet u key ((anim.endVals.get? i).join)
      | none => u)
    upd

/-- The per-animation body of `processAnimationFrame`: returns the animation
(with its possibly updated `completed` flag) and its batch contribution, if
any.  `JavaScript` note: with `duration = 0` and `elapsed = 0` the source
computes a `NaN` progress (no completion); rational division yields progress
`0` there (also no completion) — all claims below assume the spec invariant
`duration > 0`. -/
def processOne (anim : ProcessedAnimation) (currentTime masterStartTime : ℚ) :
    ProcessedAnimation × Option AnimationBatchUpdate :=
  if anim.completed then (anim, none)
  else
    let elapsed := currentTime - masterStartTime - anim.delay
    if elapsed < 0 then (anim, none)
    else
      let progress := min (elapsed / anim.duration) 1
      let eased := applyEasing progress anim.easing
      let upd := buildUpdates anim eased
      if 1 ≤ progress then
        ({ anim with completed := true },
         some { target := anim.target, updates := exactEndUpdates anim upd })
      else
        (anim, some { target := anim.target, updates := upd })

/-- Source `processAnimationFrame`: process the animations in order; the returned
pair is (animations with updated `completed` flags, batch updates pushed). -/
def processAnimationFrame (animations : List ProcessedAnimation)
    (currentTime masterStartTime : ℚ) :
    List ProcessedAnimation × List AnimationBatchUpdate :=
  (animations.map (fun a => (processOne a currentTime masterStartTime).1),
   animations.filterMap (fun a => (processOne a currentTime masterStartTime).2))

/-- Source `areAllAnimationsCompleted`. -/
def areAllAnimationsCompleted (animations : List ProcessedAnimation) : Bool :=
  animations.all (fun anim => anim.completed)

/-! ## Generator executor (src/composables/useGeneratorAnimation.ts)

Target object identity is modelled by a natural-number id.  Easing values are
modelled post-resolution (the named-preset string table maps names to easing
functions; only the presence of an easing matters to the embedded logic). -/

structure AnimationProps where
  duration : Option ℚ
  delay : Option ℚ
  easing : Option EasingFunction

structure SingleAnimation where
  target : ℕ
  properties : List (String × AnimatableValue)
  options : AnimationProps

structure AnimationInstruction where
  target : ℕ
  properties : List (String × AnimatableValue)
  options : Option AnimationProps

structure AnimationGroup where
  animations : List SingleAnimation

def emptyProps : AnimationProps := ⟨none, none, none⟩

/-- A value yielded by the cooperative step producer: an array of
instructions, a single instruction, or anything else (warned about and turned
into an empty group). -/
inductive Yielded
  | arr (instructions : List AnimationInstruction)
  | single (instruction : AnimationInstruction)
  | malformed

/-- One `generator.next()` outcome: a yield, normal completion, or a thrown
error. -/
inductive ProducerEvent
  | yield (y : Yielded)
  | done
  | raise

/-- Normalisation of one yielded value into an `AnimationGroup`
(`options: instruction.options || {}`). -/
def normalizeYield : Yielded → AnimationGroup
  | .arr is =>
    ⟨is.map (fun i => ⟨i.target, i.properties, i.options.getD emptyProps⟩)⟩
  | .single i => ⟨[⟨i.target, i.properties, i.options.getD emptyProps⟩]⟩
  | .malformed => ⟨[]⟩

/-- Source `executeGeneratorFunction`: drain the producer, keeping each normalised
group with at least one animation, until `done` — or until a `next()` call
throws, in which case the `catch` returns the steps collected so far. -/
def executeGeneratorFunction : List ProducerEvent → List AnimationGroup
  | [] => []
  | .done :: _ => []
  | .raise :: _ => []
  | .yield y :: rest =>
    let animationStep := normalizeYield y
    if 0 < animationStep.animations.length then
      animationStep :: executeGeneratorFunction rest
    else
      executeGeneratorFunction rest

/-- Source `targetAnimation.options?.duration || defaultDuration`: `||` turns both an
unset and a `0` duration into the default. -/
def jsOrDuration (d : Option ℚ) (defaultDuration : ℚ) : ℚ :=
  match d with
  | some v => if v = 0 then defaultDuration else v
  | none => defaultDuration

/-- The merge accumulator of `createAnimationFromGenerator`. -/
structure MergeState where
  mergedProperties : List (String × AnimatableValue)
  duration : ℚ
  delay : Option ℚ
  easing : Option EasingFunction

/-- Source `delay === undefined ? animDelay : Math.min(delay, animDelay)`. -/
def delayCombine (acc : Option ℚ) (animDelay : ℚ) : ℚ :=
  match acc with
  | none => animDelay
  | some d => min d animDelay

/-- One iteration of the merge loop over the animations that target the same
object within one step. -/
def mergeStep (defaultDuration : ℚ) (st : MergeState) (ta : SingleAnimation) :
    MergeState :=
  { mergedProperties := recAssign st.mergedProperties ta.properties
    duration := max st.duration (jsOrDuration ta.options.duration defaultDuration)
    delay := some (delayCombine st.delay (ta.options.delay.getD 0))
    easing := match ta.options.easing with
      | some e => some e
      | none => st.easing }

/-- The whole merge loop: duration seeded with `defaultDuration`, delay
initialised as `undefined`, easing initialised with the caller-wide default. -/
def mergeTargetAnimations (defaultDuration : ℚ)
    (defaultEasing : Option EasingFunction)
    (targetAnimations : List SingleAnimation) : MergeState :=
  targetAnimations.foldl (mergeStep defaultDuration)
    ⟨[], defaultDuration, none, defaultEasing⟩

/-- The `AnimationStep` synthesised for one target and one step group: the
merged animation when the target has sub-instructions in the group, else the
no-op placeholder `createAnimationStep({}, { duration: 100 })`. -/
def stepForTarget (defaultDuration : ℚ) (defaultEasing : Option EasingFunction)
    (target : ℕ) (group : AnimationGroup) : AnimationStep :=
  let targetAnimations := group.animations.filter (fun a => a.target == target)
  if 0 < targetAnimations.length then
    let m := mergeTargetAnimations defaultDuration defaultEasing targetAnimations
    { properties := m.mergedProperties
      duration := some m.duration
      delay := some (m.delay.getD 0)
      easing := match m.easing with
        | some e => some e
        | none => defaultEasing }
  else
    { properties := [], duration := some 100, easing := none, delay := none }

/-! ## Helper lemmas -/

theorem foldl_min_mem (a : ℚ) (l : List ℚ) : l.foldl min a ∈ a :: l := by
  induction l generalizing a with
  | nil => simp
  | cons x xs ih =>
    rw [List.foldl_cons]
    rcases List.mem_cons.1 (ih (min a x)) with h1 | h1
    · rw [h1]
      rcases min_choice a x with h2 | h2 <;> rw [h2] <;> simp
    · simp [List.mem_cons.2 (Or.inr h1)]

theorem foldl_min_le (a : ℚ) (l : List ℚ) : ∀ x ∈ a :: l, l.foldl min a ≤ x := by
  induction l generalizing a with
  | nil =>
    intro x hx
    rw [List.mem_singleton] at hx
    simp [hx]
  | cons y ys ih =>
    intro x hx
    rw [List.foldl_cons]
    rcases List.mem_cons.1 hx with h | h
    · rw [h]
      exact le_trans (ih (min a y) _ (List.mem_cons_self _ _)) (min_le_left a y)
    · rcases List.mem_cons.1 h with h2 | h2
      · rw [h2]
        exact le_trans (ih (min a y) _ (List.mem_cons_self _ _)) (min_le_right a y)
      · exact ih (min a y) x (List.mem_cons_of_mem _ h2)

theorem foldl_max_mem (a : ℚ) (l : List ℚ) : l.foldl max a ∈ a :: l := by
  induction l generalizing a with
  | nil => simp
  | cons x xs ih =>
    rw [List.foldl_cons]
    rcases List.mem_cons.1 (ih (max a x)) with h1 | h1
    · rw [h1]
      rcases max_choice a x with h2 | h2 <;> rw [h2] <;> simp
    · simp [List.mem_cons.2 (Or.inr h1)]

theorem foldl_max_ge (a : ℚ) (l : List ℚ) : ∀ x ∈ a :: l, x ≤ l.foldl max a := by
  induction l generalizing a with
  | nil =>
    intro x hx
    rw [List.mem_singleton] at hx
    simp [hx]
  | cons y ys ih =>
    intro x hx
    rw [List.foldl_cons]
    rcases List.mem_cons.1 hx with h | h
    · rw [h]
      exact le_trans (le_max_left a y) (ih (max a y) _ (List.mem_cons_self _ _))
    · rcases List.mem_cons.1 h with h2 | h2
      · rw [h2]
        exact le_trans (le_max_right a y) (ih (max a y) _ (List.mem_cons_self _ _))
      · exact ih (max a y) x (List.mem_cons_of_mem _ h2)

theorem foldl_max_of_le (a : ℚ) (l : List ℚ) (h : ∀ x ∈ l, x ≤ a) :
    l.foldl max a = a := by
  induction l with
  | nil => rfl
  | cons x xs ih =>
    rw [List.foldl_cons, max_eq_left (h x (List.mem_cons_self _ _))]
    exact ih (fun y hy => h y (List.mem_cons_of_mem _ hy))

theorem merge_duration_foldl (dd : ℚ) (tas : List SingleAnimation) (st : MergeState) :
    (tas.foldl (mergeStep dd) st).duration
      = tas.foldl (fun d ta => max d (jsOrDuration ta.options.duration dd)) st.duration := by
  induction tas generalizing st with
  | nil => rfl
  | cons t ts ih =>
    rw [List.foldl_cons, List.foldl_cons, ih]
    rfl

theorem merge_delay_foldl (dd : ℚ) (tas : List SingleAnimation) (st : MergeState) :
    (tas.foldl (mergeStep dd) st).delay
      = tas.foldl (fun o ta => some (delayCombine o (ta.options.delay.getD 0))) st.delay := by
  induction tas generalizing st with
  | nil => rfl
  | cons t ts ih =>
    rw [List.foldl_cons, List.foldl_cons, ih]
    rfl

theorem delay_foldl_some (l : List ℚ) (d0 : ℚ) :
    l.foldl (fun o d => some (delayCombine o d)) (some d0) = some (l.foldl min d0) := by
  induction l generalizing d0 with
  | nil => rfl
  | cons x xs ih =>
    rw [List.foldl_cons, List.foldl_cons]
    exact ih (min d0 x)

/-! ## Claims about the generator executor -/

/-- C3: merging simultaneous sub-instructions on one target takes the minimum
of the delays (each defaulting to 0 when unset) and the maximum of the
resolved (explicit-or-default) durations, seeded with the caller-wide
default; concretely, delays 0 and 1000 merge to 0, and durations 500 and
1000 merge to 1000 under `defaultDuration = 1000`. -/
theorem C3_merge_min_delay_max_duration :
    (∀ (dd : ℚ) (de : Option EasingFunction) (t0 : SingleAnimation)
        (rest : List SingleAnimation),
      ∃ m, (mergeTargetAnimations dd de (t0 :: rest)).delay = some m ∧
        m ∈ (t0 :: rest).map (fun s => s.options.delay.getD 0) ∧
        ∀ d ∈ (t0 :: rest).map (fun s => s.options.delay.getD 0), m ≤ d)
    ∧ (∀ (dd : ℚ) (de : Option EasingFunction) (tas : List SingleAnimation),
        (mergeTargetAnimations dd de tas).duration
            ∈ dd :: tas.map (fun s => jsOrDuration s.options.duration dd) ∧
        ∀ d ∈ dd :: tas.map (fun s => jsOrDuration s.options.duration dd),
          d ≤ (mergeTargetAnimations dd de tas).duration)
    ∧ (stepForTarget 1000 none 0
        ⟨[⟨0, [], ⟨some 500, some 0, none⟩⟩,
          ⟨0, [], ⟨some 1000, some 1000, none⟩⟩]⟩).delay = some 0
    ∧ (stepForTarget 1000 none 0
        ⟨[⟨0, [], ⟨some 500, some 0, none⟩⟩,
          ⟨0, [], ⟨some 1000, some 1000, none⟩⟩]⟩).duration = some 1000 := by
  refine ⟨?_, ?_, by decide, by decide⟩
  · intro dd de t0 rest
    have h1 : (mergeTargetAnimations dd de (t0 :: rest)).delay
        = some ((rest.map (fun s => s.options.delay.getD 0)).foldl min
            (t0.options.delay.getD 0)) := by
      rw [mergeTargetAnimations, merge_delay_foldl]
      show (t0 :: rest).foldl
        (fun o ta => some (delayCombine o (ta.options.delay.getD 0))) none = _
      rw [List.foldl_cons]
      have h2 := delay_foldl_some (rest.map (fun s => s.options.delay.getD 0))
        (t0.options.delay.getD 0)
      rw [List.foldl_map] at h2
      exact h2
    refine ⟨_, h1, ?_, ?_⟩
    · have := foldl_min_mem (t0.options.delay.getD 0)
        (rest.map (fun s => s.options.delay.getD 0))
      simpa using this
    · intro d hd
      have := foldl_min_le (t0.options.delay.getD 0)
        (rest.map (fun s => s.options.delay.getD 0)) d (by simpa using hd)
      exact this
  · intro dd de tas
    have h1 : (mergeTargetAnimations dd de tas).duration
        = (tas.map (fun s => jsOrDuration s.options.duration dd)).foldl max dd := by
      rw [mergeTargetAnimations, merge_duration_foldl, List.foldl_map]
    rw [h1]
    exact ⟨foldl_max_mem dd _, foldl_max_ge dd _⟩

theorem C3_witness :
    (∃ m, (mergeTargetAnimations 1000 none
        [⟨0, [], ⟨some 500, some 0, none⟩⟩,
         ⟨0, [], ⟨some 1000, some 1000, none⟩⟩]).delay = some m ∧
      m ∈ [(0 : ℚ), 1000] ∧ ∀ d ∈ [(0 : ℚ), 1000], m ≤ d) := by
  have h := C3_merge_min_delay_max_duration.1 1000 none
    ⟨0, [], ⟨some 500, some 0, none⟩⟩ [⟨0, [], ⟨some 1000, some 1000, none⟩⟩]
  simpa using h

/-- C10: the merged duration is seeded with `defaultDuration` and each
sub-instruction duration is replaced by `defaultDuration` when absent or `0`,
so the merged duration is always at least `defaultDuration` — even when every
sub-instruction specifies an explicit shorter duration, the merge yields
`defaultDuration` (concretely, explicit durations 200 and 300 with default
1000 merge to 1000, not 300). -/
theorem C10_duration_seeded_with_default :
    (∀ (dd : ℚ) (de : Option EasingFunction) (tas : List SingleAnimation),
      dd ≤ (mergeTargetAnimations dd de tas).duration)
    ∧ (∀ (dd : ℚ) (de : Option EasingFunction) (tas : List SingleAnimation),
        (∀ s ∈ tas, ∀ v, s.options.duration = some v → v ≤ dd) →
        (mergeTargetAnimations dd de tas).duration = dd)
    ∧ (∀ dd : ℚ, jsOrDuration none dd = dd ∧ jsOrDuration (some 0) dd = dd)
    ∧ (mergeTargetAnimations 1000 none
        [⟨0, [], ⟨some 200, none, none⟩⟩, ⟨0, [], ⟨some 300, none, none⟩⟩]).duration
        = 1000 := by
  have hfold : ∀ (dd : ℚ) (de : Option EasingFunction) (tas : List SingleAnimation),
      (mergeTargetAnimations dd de tas).duration
        = (tas.map (fun s => jsOrDuration s.options.duration dd)).foldl max dd := by
    intro dd de tas
    rw [mergeTargetAnimations, merge_duration_foldl, List.foldl_map]
  refine ⟨?_, ?_, ?_, by decide⟩
  · intro dd de tas
    rw [hfold]
    exact foldl_max_ge dd _ dd (List.mem_cons_self _ _)
  · intro dd de tas h
    rw [hfold]
    refine foldl_max_of_le dd _ ?_
    intro x hx
    rcases List.mem_map.1 hx with ⟨s, hs, hsx⟩
    subst hsx
    cases hdur : s.options.duration with
    | none => simp [jsOrDuration]
    | some v =>
      by_cases hv : v = 0
      · simp [jsOrDuration, hv]
      · simpa [jsOrDuration, hv] using h s hs v hdur
  · intro dd
    exact ⟨rfl, rfl⟩

theorem C10_witness :
    (mergeTargetAnimations 1000 none
      [⟨0, [], ⟨some 200, none, none⟩⟩, ⟨0, [], ⟨some 300, none, none⟩⟩]).duration
      = 1000 := by
  have h := C10_duration_seeded_with_default.2.1 1000 none
    [⟨0, [], ⟨some 200, none, none⟩⟩, ⟨0, [], ⟨some 300, none, none⟩⟩]
  refine h ?_
  intro s hs v hv
  fin_cases hs <;> simp_all <;> linarith [hv]

/-- C8: if the step producer raises while being drained, the executor stops
draining and returns exactly the groups collected from the yields before the
error — the same list a normally completing producer with those yields gives —
and no error propagates out of the drain. -/
theorem executeGeneratorFunction_yield (y : Yielded) (tail : List ProducerEvent) :
    executeGeneratorFunction (ProducerEvent.yield y :: tail)
      = if 0 < (normalizeYield y).animations.length
        then normalizeYield y :: executeGeneratorFunction tail
        else executeGeneratorFunction tail := rfl

theorem C8_drain_error_keeps_collected_steps (ys : List Yielded) (rest : List ProducerEvent) :
    executeGeneratorFunction (ys.map ProducerEvent.yield ++ ProducerEvent.raise :: rest)
      = (ys.map normalizeYield).filter (fun g => decide (0 < g.animations.length))
    ∧ executeGeneratorFunction (ys.map ProducerEvent.yield ++ ProducerEvent.raise :: rest)
      = executeGeneratorFunction (ys.map ProducerEvent.yield ++ [ProducerEvent.done]) := by
  induction ys with
  | nil => exact ⟨rfl, rfl⟩
  | cons y ys ih =>
    rw [List.map_cons, List.map_cons, List.cons_append, List.cons_append,
      executeGeneratorFunction_yield, executeGeneratorFunction_yield, List.filter_cons]
    by_cases h : 0 < (normalizeYield y).animations.length
    · rw [if_pos h, if_pos h, if_pos (by simpa using h)]
      exact ⟨congrArg _ ih.1, congrArg _ ih.2⟩
    · rw [if_neg h, if_neg h, if_neg (by simpa using h)]
      exact ih

/-! ## Record lemmas -/

theorem recGet_recSet_self {α : Type} (o : List (String × α)) (k : String) (v : α) :
    recGet (recSet o k v) k = some v := by
  induction o with
  | nil => simp [recSet, recGet]
  | cons p rest ih =>
    obtain ⟨k0, v0⟩ := p
    by_cases h : k0 = k
    · simp [recSet, recGet, h]
    · simp [recSet, recGet, h, ih]

theorem recGet_recSet_ne {α : Type} (o : List (String × α)) (k k2 : String)
    (v : α) (h : k2 ≠ k) : recGet (recSet o k v) k2 = recGet o k2 := by
  have hk : ¬ k = k2 := fun he => h he.symm
  induction o with
  | nil => simp [recSet, recGet, hk]
  | cons p rest ih =>
    obtain ⟨k0, v0⟩ := p
    rw [recSet]
    by_cases h0 : k0 = k
    · rw [if_pos h0]
      have hk02 : ¬ k0 = k2 := by
        rw [h0]
        exact hk
      rw [recGet, recGet, if_neg hk02, if_neg hk02]
    · rw [if_neg h0, recGet, recGet]
      by_cases h2 : k0 = k2
      · rw [if_pos h2, if_pos h2]
      · rw [if_neg h2, if_neg h2, ih]

/-- With duplicate-free keys (as `Object.keys` guarantees), reading every key
of an object back returns exactly the stored values, in order. -/
theorem recKeys_map_recGet {α : Type} (o : List (String × α))
    (h : (recKeys o).Nodup) :
    (recKeys o).map (fun k => recGet o k) = o.map (fun p => some p.2) := by
  induction o with
  | nil => rfl
  | cons p rest ih =>
    obtain ⟨k0, v0⟩ := p
    rw [recKeys, List.map_cons, List.map_cons, List.map_cons]
    have hk0 : recGet ((k0, v0) :: rest) k0 = some v0 := by simp [recGet]
    rw [hk0]
    have hnd := h
    rw [recKeys, List.map_cons, List.nodup_cons] at hnd
    have hrest : (rest.map (fun p => p.1)).map (fun k => recGet ((k0, v0) :: rest) k)
        = (rest.map (fun p => p.1)).map (fun k => recGet rest k) := by
      apply List.map_congr_left
      intro k hk
      have hne : k0 ≠ k := by
        intro he
        exact hnd.1 (he ▸ hk)
      simp [recGet, hne]
    rw [show recKeys rest = rest.map (fun p => p.1) from rfl] at ih
    rw [hrest, ih hnd.2]

/-! ## Claims about animation preparation -/

/-- C4: reverse preparation to step `-1` targets exactly the initial state
(its `endVals` are the `initialState` values), and in reverse mode every
prepared animation uses the caller-supplied default duration and a zero
delay, regardless of per-step settings. -/
theorem C4_reverse_prepare_defaults :
    (∀ (targets : List AnimationTarget) (dd : ℚ) (de : Option EasingFunction),
      prepareReverseAnimations targets (-1) dd de = targets.map (fun t =>
        { target := t.target
          keys := recKeys t.initialState
          startVals := (recKeys t.initialState).map (fun k => recGet t.target k)
          endVals := (recKeys t.initialState).map (fun k => recGet t.initialState k)
          duration := dd
          delay := 0
          easing := de
          completed := false }))
    ∧ (∀ (t : AnimationTarget) (dd : ℚ) (de : Option EasingFunction),
        (recKeys t.initialState).Nodup →
        ∀ pa ∈ prepareReverseAnimations [t] (-1) dd de,
          pa.endVals = t.initialState.map (fun p => some p.2))
    ∧ (∀ (targets : List AnimationTarget) (stepIndex : ℤ) (dd : ℚ)
        (de : Option EasingFunction),
        ∀ pa ∈ prepareReverseAnimations targets stepIndex dd de,
          pa.duration = dd ∧ pa.delay = 0) := by
  have hcum : ∀ t : AnimationTarget, cumulativeState t (-1) = t.initialState := by
    intro t
    rw [cumulativeState]
    norm_num
  refine ⟨?_, ?_, ?_⟩
  · intro targets dd de
    rw [prepareReverseAnimations]
    apply List.map_congr_left
    intro t _
    rw [hcum t]
  · intro t dd de hnd pa hpa
    rw [prepareReverseAnimations] at hpa
    rcases List.mem_map.1 hpa with ⟨t2, ht2, hpa2⟩
    rw [List.mem_singleton] at ht2
    rw [ht2] at hpa2
    rw [← hpa2]
    show (recKeys (cumulativeState t (-1))).map
        (fun k => recGet (cumulativeState t (-1)) k) = _
    rw [hcum t]
    exact recKeys_map_recGet t.initialState hnd
  · intro targets stepIndex dd de pa hpa
    rw [prepareReverseAnimations] at hpa
    rcases List.mem_map.1 hpa with ⟨t2, _, hpa2⟩
    rw [← hpa2]
    exact ⟨rfl, rfl⟩

def c4Target : AnimationTarget :=
  { target := [("x", AnimatableValue.num 100)]
    steps := [⟨some 250, none, some 40, [("x", AnimatableValue.num 100)]⟩]
    initialState := [("x", AnimatableValue.num 0)] }

theorem C4_witness :
    (∀ pa ∈ prepareReverseAnimations [c4Target] (-1) 1000 none,
      pa.endVals = [some (AnimatableValue.num 0)])
    ∧ (∀ pa ∈ prepareReverseAnimations [c4Target] 0 1000 none,
        pa.duration = 1000 ∧ pa.delay = 0) := by
  constructor
  · intro pa hpa
    have h := C4_reverse_prepare_defaults.2.1 c4Target 1000 none (by decide) pa hpa
    simpa [c4Target] using h
  · intro pa hpa
    exact C4_reverse_prepare_defaults.2.2 [c4Target] 0 1000 none pa hpa

/-- C2 counterexample: the claim asserts that a negative step index makes
`prepareAnimations` silently contribute nothing without error, but the bounds
guard `stepIndex < steps.length` admits negative indices and
`steps[negative]` is `undefined`, so reading `.properties` raises a
`TypeError`: with one one-step target and `stepIndex = -1` the call errors
instead of returning a list. -/
theorem C2_counterexample :
    ¬ ∃ anims, prepareAnimations [c4Target] (-1) 1000 none = Except.ok anims := by
  rintro ⟨anims, h⟩
  have he : prepareAnimations [c4Target] (-1) 1000 none
      = Except.error
        "TypeError: Cannot read properties of undefined (reading properties)" := rfl
  rw [he] at h
  exact Except.noConfusion h

/-- C2 (amended): for every non-negative step index, `prepareAnimations`
returns without error and each target whose step array lacks an entry at that
index contributes nothing (the result is exactly the in-bounds targets'
animations); for every negative step index and non-empty target list, the
call raises a `TypeError` instead of contributing zero entries. -/
theorem C2_out_of_bounds_skip :
    (∀ (targets : List AnimationTarget) (stepIndex : ℤ) (dd : ℚ)
        (de : Option EasingFunction),
      0 ≤ stepIndex →
      prepareAnimations targets stepIndex dd de
        = Except.ok (targets.filterMap (fun t =>
            (jsIndex t.steps stepIndex).map
              (fun step => mkForwardAnimation t step dd de))))
    ∧ (∀ (t0 : AnimationTarget) (targets : List AnimationTarget) (stepIndex : ℤ)
        (dd : ℚ) (de : Option EasingFunction),
        stepIndex < 0 →
        prepareAnimations (t0 :: targets) stepIndex dd de
          = Except.error
            "TypeError: Cannot read properties of undefined (reading properties)") := by
  constructor
  · intro targets stepIndex dd de hge
    induction targets with
    | nil => rfl
    | cons t ts ih =>
      by_cases hlt : stepIndex < (t.steps.length : ℤ)
      · have hidx : jsIndex t.steps stepIndex
            = some (t.steps.get ⟨stepIndex.toNat, by omega⟩) := by
          rw [jsIndex, if_neg (by omega)]
          exact List.get?_eq_get (by omega)
        rw [prepareAnimations, if_pos hlt, hidx, ih, List.filterMap_cons]
        simp [hidx]
      · have hidx : jsIndex t.steps stepIndex = none := by
          rw [jsIndex, if_neg (by omega)]
          exact List.get?_eq_none.2 (by omega)
        rw [prepareAnimations, if_neg hlt, ih, List.filterMap_cons]
        simp [hidx]
  · intro t0 targets stepIndex dd de hneg
    rw [prepareAnimations]
    have hidx : jsIndex t0.steps stepIndex = none := by
      rw [jsIndex, if_pos hneg]
    rw [if_pos (by omega), hidx]

theorem C2_witness :
    prepareAnimations [c4Target] 5 1000 none = Except.ok []
    ∧ prepareAnimations [c4Target] (-1) 1000 none
      = Except.error
        "TypeError: Cannot read properties of undefined (reading properties)" := by
  constructor
  · have h := C2_out_of_bounds_skip.1 [c4Target] 5 1000 none (by norm_num)
    rw [h]
    rfl
  · exact C2_out_of_bounds_skip.2 c4Target [] (-1) 1000 none (by norm_num)

/-! ## Claims about the frame processor -/

/-- After folding the per-index write loop over all indices of a
duplicate-free key list, looking any key up returns the value written for its
index. -/
theorem fold_write_get (keys : List String) (f : ℕ → JSVal)
    (u0 : List (String × JSVal)) (hnd : keys.Nodup) :
    ∀ n, n ≤ keys.length → ∀ (i : ℕ) (key : String), i < n → keys.get? i = some key →
      recGet ((List.range n).foldl
        (fun u j =>
          match keys.get? j with
          | some k => recSet u k (f j)
          | none => u) u0) key = some (f i) := by
  intro n
  induction n with
  | zero =>
    intro _ i key hi _
    exact absurd hi (Nat.not_lt_zero i)
  | succ n ih =>
    intro hn i key hi hkey
    rw [List.range_succ, List.foldl_append, List.foldl_cons, List.foldl_nil]
    have hnlt : n < keys.length := hn
    obtain ⟨keyn, hkeyn⟩ : ∃ keyn, keys.get? n = some keyn := by
      rw [List.get?_eq_get hnlt]
      exact ⟨_, rfl⟩
    rw [hkeyn]
    by_cases hin : i = n
    · rw [hin] at hkey
      rw [hkey] at hkeyn
      cases hkeyn
      rw [hin]
      exact recGet_recSet_self _ _ _
    · have hne : key ≠ keyn := by
        intro he
        apply hin
        refine List.get?_inj (lt_of_lt_of_le (Nat.lt_of_lt_of_le hi hn) le_rfl) hnd ?_
        rw [hkey, hkeyn, he]
      rw [recGet_recSet_ne _ _ _ _ hne]
      exact ih (Nat.le_of_succ_le hn) i key (by omega) hkey

/-- A completed animation is skipped: no batch entry, no state change. -/
theorem processOne_completed (anim : ProcessedAnimation) (ct ms : ℚ)
    (h : anim.completed = true) : processOne anim ct ms = (anim, none) := by
  rw [processOne, if_pos h]

/-- An animation still gated by its delay is skipped. -/
theorem processOne_gated (anim : ProcessedAnimation) (ct ms : ℚ)
    (hc : anim.completed = false) (hlt : ct - ms - anim.delay < 0) :
    processOne anim ct ms = (anim, none) := by
  rw [processOne, if_neg (by rw [hc]; exact Bool.false_ne_true)]
  simp only [if_pos hlt]

/-- Once `elapsed ≥ duration > 0`, progress is clamped to `1`, the animation
is marked completed and its updates are the exact end values. -/
theorem processOne_finished (anim : ProcessedAnimation) (ct ms : ℚ)
    (hc : anim.completed = false) (hd : 0 < anim.duration)
    (he : anim.duration ≤ ct - ms - anim.delay) :
    processOne anim ct ms
      = ({ anim with completed := true },
         some { target := anim.target
                updates := exactEndUpdates anim
                  (buildUpdates anim (applyEasing 1 anim.easing)) }) := by
  have h0 : ¬ (ct - ms - anim.delay < 0) := by
    push_neg
    nlinarith
  have hp : min ((ct - ms - anim.delay) / anim.duration) 1 = 1 := by
    refine min_eq_right ?_
    rw [le_div_iff hd]
    linarith
  rw [processOne, if_neg (by rw [hc]; exact Bool.false_ne_true)]
  simp only [if_neg h0, hp, if_pos le_rfl]

/-- The concrete animation of C1's delay-gating scenario. -/
def c1Anim : ProcessedAnimation :=
  { target := []
    keys := ["x"]
    startVals := [some (AnimatableValue.num 0)]
    endVals := [some (AnimatableValue.num 100)]
    duration := 1000
    delay := 500
    easing := none
    completed := false }

/-- C1: a non-completed animation with `elapsed = currentTime -
masterStartTime - delay < 0` contributes no batch entry and stays
non-completed; once `elapsed ≥ duration` it contributes a batch entry whose
update for every key is exactly the corresponding `endVals` entry and is
marked completed.  Concretely (`delay = 500`, `duration = 1000`,
`masterStartTime = 1000`): at `currentTime = 1400` there are zero batch
updates and `completed = false`; at `2500` the single update carries exactly
the end value and `completed = true`.  (The positive-duration and
duplicate-free-keys hypotheses are the spec's own data-model invariants.) -/
theorem C1_delay_gating_and_exact_completion :
    (∀ (anim : ProcessedAnimation) (ct ms : ℚ),
      anim.completed = false → ct - ms - anim.delay < 0 →
      processOne anim ct ms = (anim, none))
    ∧ (∀ (anim : ProcessedAnimation) (ct ms : ℚ),
        anim.completed = false → 0 < anim.duration → anim.keys.Nodup →
        anim.duration ≤ ct - ms - anim.delay →
        (processOne anim ct ms).1.completed = true ∧
        ∃ u, (processOne anim ct ms).2 = some u ∧ u.target = anim.target ∧
          ∀ (i : ℕ) (key : String), anim.keys.get? i = some key →
            recGet u.updates key = some ((anim.endVals.get? i).join))
    ∧ ((processAnimationFrame [c1Anim] 1400 1000).2 = []
       ∧ (processAnimationFrame [c1Anim] 1400 1000).1.map (fun a => a.completed)
         = [false])
    ∧ ((processAnimationFrame [c1Anim] 2500 1000).2.map (fun u => u.updates)
         = [[("x", some (AnimatableValue.num 100))]]
       ∧ (processAnimationFrame [c1Anim] 2500 1000).1.map (fun a => a.completed)
         = [true]) := by
  refine ⟨processOne_gated, ?_, ⟨?_, ?_⟩, ⟨?_, ?_⟩⟩
  · intro anim ct ms hc hd hnd he
    rw [processOne_finished anim ct ms hc hd he]
    refine ⟨rfl, _, rfl, rfl, ?_⟩
    intro i key hkey
    have hi : i < anim.keys.length := by
      by_contra hcon
      rw [List.get?_eq_none.2 (by omega)] at hkey
      exact Option.noConfusion hkey
    exact fold_write_get anim.keys (fun j => (anim.endVals.get? j).join)
      (buildUpdates anim (applyEasing 1 anim.easing)) hnd
      anim.keys.length le_rfl i key hi hkey
  · have h := processOne_gated c1Anim 1400 1000 rfl (by norm_num [c1Anim])
    simp [processAnimationFrame, h]
  · have h := processOne_gated c1Anim 1400 1000 rfl (by norm_num [c1Anim])
    simp only [processAnimationFrame, List.map_cons, List.map_nil, h]
    rfl
  · have h := processOne_finished c1Anim 2500 1000 rfl (by norm_num [c1Anim])
      (by norm_num [c1Anim])
    simp only [processAnimationFrame, List.filterMap_cons, List.filterMap_nil, h]
    simp [exactEndUpdates, buildUpdates, c1Anim, List.range_succ, recSet,
      applyEasing, lerpJS, lerp, Option.join]
  · have h := processOne_finished c1Anim 2500 1000 rfl (by norm_num [c1Anim])
      (by norm_num [c1Anim])
    simp [processAnimationFrame, h]

theorem C1_witness :
    processOne c1Anim 1400 1000 = (c1Anim, none)
    ∧ (processOne c1Anim 2500 1000).1.completed = true := by
  constructor
  · exact C1_delay_gating_and_exact_completion.1 c1Anim 1400 1000 rfl
      (by norm_num [c1Anim])
  · exact (C1_delay_gating_and_exact_completion.2.1 c1Anim 2500 1000 rfl
      (by norm_num [c1Anim]) (by decide) (by norm_num [c1Anim])).1

/-- C9: the `completed` flag is monotonic — a completed animation is skipped
and never reset, across any sequence of `processAnimationFrame` calls. -/
theorem C9_completed_monotonic :
    (∀ (anim : ProcessedAnimation) (ct ms : ℚ),
      anim.completed = true → processOne anim ct ms = (anim, none))
    ∧ (∀ (animations : List ProcessedAnimation) (calls : List (ℚ × ℚ))
        (i : ℕ) (a : ProcessedAnimation),
        animations.get? i = some a → a.completed = true →
        ∃ b, (calls.foldl
            (fun anims c => (processAnimationFrame anims c.1 c.2).1)
            animations).get? i = some b ∧ b.completed = true) := by
  refine ⟨processOne_completed, ?_⟩
  intro animations calls
  induction calls generalizing animations with
  | nil =>
    intro i a ha hc
    exact ⟨a, ha, hc⟩
  | cons c cs ih =>
    intro i a ha hc
    rw [List.foldl_cons]
    refine ih (processAnimationFrame animations c.1 c.2).1 i
      ((processOne a c.1 c.2).1) ?_ ?_
    · show (animations.map (fun x => (processOne x c.1 c.2).1)).get? i = _
      rw [List.get?_map, ha]
      rfl
    · rw [processOne_completed a c.1 c.2 hc]
      exact hc

theorem C9_witness :
    ∃ b, ([((1400 : ℚ), (1000 : ℚ)), ((2500 : ℚ), (1000 : ℚ))].foldl
        (fun anims c => (processAnimationFrame anims c.1 c.2).1)
        [{ c1Anim with completed := true }]).get? 0 = some b
      ∧ b.completed = true :=
  C9_completed_monotonic.2 [{ c1Anim with completed := true }]
    [((1400 : ℚ), (1000 : ℚ)), ((2500 : ℚ), (1000 : ℚ))] 0
    { c1Anim with completed := true } rfl rfl

/-! ## Claims about the lerp system -/

/-- Each rounded channel of `colorLerp` stays an integer in `[0, 255]` when
the inputs are in range and the progress is in `[0, 1]`. -/
theorem jsRound_channel_bounds (s e p : ℚ) (hp0 : 0 ≤ p) (hp1 : p ≤ 1)
    (hs0 : 0 ≤ s) (hs1 : s ≤ 255) (he0 : 0 ≤ e) (he1 : e ≤ 255) :
    ((jsRound (s + (e - s) * p) : ℤ) : ℚ).den = 1
    ∧ 0 ≤ ((jsRound (s + (e - s) * p) : ℤ) : ℚ)
    ∧ ((jsRound (s + (e - s) * p) : ℤ) : ℚ) ≤ 255 := by
  have hx0 : 0 ≤ s + (e - s) * p := by nlinarith
  have hx1 : s + (e - s) * p ≤ 255 := by nlinarith
  refine ⟨Rat.den_intCast _, ?_, ?_⟩
  · have h : (0 : ℤ) ≤ jsRound (s + (e - s) * p) := by
      rw [jsRound]
      refine Int.le_floor.2 ?_
      push_cast
      linarith
    exact_mod_cast h
  · have h : jsRound (s + (e - s) * p) ≤ 255 := by
      rw [jsRound]
      have h2 : ⌊s + (e - s) * p + 1 / 2⌋ < 256 := by
        refine Int.floor_lt.2 ?_
        push_cast
        linarith
      omega
    exact_mod_cast h

/-- C5 counterexample: the claim fails on the code in both halves.  At
`c1 = {0,0,0}`, `c2 = {255,255,255}` (neither defining alpha) and progress
`2`, the `r` channel of `colorLerp` is `510`, outside `[0, 255]`, and the
result defines an alpha (it is `1`) although neither input does — so
"channel in [0,255] for every progress" and "alpha present iff at least one
side defines it" are both false. -/
theorem C5_counterexample :
    ¬ (((colorLerp ⟨0, 0, 0, none⟩ ⟨255, 255, 255, none⟩ 2).r ≤ 255)
       ∧ ((colorLerp ⟨0, 0, 0, none⟩ ⟨255, 255, 255, none⟩ 2).a.isSome = true
          ↔ ((Color.mk 0 0 0 none).a.isSome = true
             ∨ (Color.mk 255 255 255 none).a.isSome = true))) := by
  intro h
  rcases h with ⟨h1, h2⟩
  have hr : (colorLerp ⟨0, 0, 0, none⟩ ⟨255, 255, 255, none⟩ 2).r = 510 := by
    show ((jsRound ((0 : ℚ) + (255 - 0) * 2) : ℤ) : ℚ) = 510
    rw [jsRound]
    norm_num
  rw [hr] at h1
  norm_num at h1

/-- C5 (amended): for colors whose channels are in `[0, 255]` and progress in
`[0, 1]`, every channel of `colorLerp` is an integer in `[0, 255]`; the
result ALWAYS defines an alpha — the pointwise lerp when both sides define
one, the defined side's value when exactly one does, and `1` when neither
does (so alpha is present if at least one side defines it, but also, with
value `1`, when neither does). -/
theorem C5_channels_and_alpha :
    ∀ (c1 c2 : Color) (p : ℚ),
      0 ≤ p → p ≤ 1 →
      0 ≤ c1.r → c1.r ≤ 255 → 0 ≤ c1.g → c1.g ≤ 255 → 0 ≤ c1.b → c1.b ≤ 255 →
      0 ≤ c2.r → c2.r ≤ 255 → 0 ≤ c2.g → c2.g ≤ 255 → 0 ≤ c2.b → c2.b ≤ 255 →
      (((colorLerp c1 c2 p).r.den = 1 ∧ 0 ≤ (colorLerp c1 c2 p).r
          ∧ (colorLerp c1 c2 p).r ≤ 255)
       ∧ ((colorLerp c1 c2 p).g.den = 1 ∧ 0 ≤ (colorLerp c1 c2 p).g
          ∧ (colorLerp c1 c2 p).g ≤ 255)
       ∧ ((colorLerp c1 c2 p).b.den = 1 ∧ 0 ≤ (colorLerp c1 c2 p).b
          ∧ (colorLerp c1 c2 p).b ≤ 255))
      ∧ (colorLerp c1 c2 p).a.isSome = true
      ∧ (c1.a = none → c2.a = none → (colorLerp c1 c2 p).a = some 1)
      ∧ (∀ a1, c1.a = some a1 → c2.a = none → (colorLerp c1 c2 p).a = some a1)
      ∧ (∀ a2, c1.a = none → c2.a = some a2 → (colorLerp c1 c2 p).a = some a2)
      ∧ (∀ a1 a2, c1.a = some a1 → c2.a = some a2 →
          (colorLerp c1 c2 p).a = some (a1 + (a2 - a1) * p)) := by
  intro c1 c2 p hp0 hp1 hr0 hr1 hg0 hg1 hb0 hb1 hr20 hr21 hg20 hg21 hb20 hb21
  refine ⟨⟨?_, ?_, ?_⟩, ?_, ?_, ?_, ?_, ?_⟩
  · exact jsRound_channel_bounds c1.r c2.r p hp0 hp1 hr0 hr1 hr20 hr21
  · exact jsRound_channel_bounds c1.g c2.g p hp0 hp1 hg0 hg1 hg20 hg21
  · exact jsRound_channel_bounds c1.b c2.b p hp0 hp1 hb0 hb1 hb20 hb21
  · simp [colorLerp]
  · intro h1 h2
    simp [colorLerp, h1, h2]
  · intro a1 h1 h2
    simp [colorLerp, h1, h2]
  · intro a2 h1 h2
    simp [colorLerp, h1, h2]
  · intro a1 a2 h1 h2
    simp [colorLerp, h1, h2]

theorem C5_witness :
    0 ≤ (colorLerp ⟨255, 0, 0, none⟩ ⟨0, 0, 255, some 1⟩ (1 / 2)).r
    ∧ (colorLerp ⟨255, 0, 0, none⟩ ⟨0, 0, 255, some 1⟩ (1 / 2)).r ≤ 255
    ∧ (colorLerp ⟨255, 0, 0, none⟩ ⟨0, 0, 255, some 1⟩ (1 / 2)).a.isSome = true := by
  have h := C5_channels_and_alpha ⟨255, 0, 0, none⟩ ⟨0, 0, 255, some 1⟩ (1 / 2)
    (by norm_num) (by norm_num) (by norm_num) (by norm_num) (by norm_num)
    (by norm_num) (by norm_num) (by norm_num) (by norm_num) (by norm_num)
    (by norm_num) (by norm_num) (by norm_num) (by norm_num)
  exact ⟨h.1.1.2.1, h.1.1.2.2, h.2.1⟩

/-- C6: when both strings look like colors and both parse, `stringLerp`
blends per channel and re-serialises via `colorToString` (an `rgb()`/`rgba()`
string); when either side is not a color string, it degrades to a discrete
switch at progress `0.5`; and concretely
`stringLerp "#ff0000" "#0000ff" 0.5 = "rgb(128, 0, 128)"`. -/
theorem C6_string_lerp :
    (∀ (s e : String) (p : ℚ) (sc ec : Color),
      isColorString s = true → isColorString e = true →
      parseColor s = Except.ok sc → parseColor e = Except.ok ec →
      stringLerp s e p = colorToString (colorLerp sc ec p))
    ∧ (∀ (s e : String) (p : ℚ),
        isColorString s = false ∨ isColorString e = false →
        stringLerp s e p = if p < 1 / 2 then s else e)
    ∧ stringLerp "#ff0000" "#0000ff" (1 / 2) = "rgb(128, 0, 128)" := by
  have hblend : ∀ (s e : String) (p : ℚ) (sc ec : Color),
      isColorString s = true → isColorString e = true →
      parseColor s = Except.ok sc → parseColor e = Except.ok ec →
      stringLerp s e p = colorToString (colorLerp sc ec p) := by
    intro s e p sc ec h1 h2 h3 h4
    simp only [stringLerp, h1, h2, h3, h4, Bool.and_self, if_true]
  refine ⟨hblend, ?_, ?_⟩
  · intro s e p h
    rcases h with h | h <;> simp [stringLerp, h]
  · rw [hblend "#ff0000" "#0000ff" (1 / 2) ⟨255, 0, 0, none⟩ ⟨0, 0, 255, none⟩
      (by decide) (by decide) rfl rfl]
    have hcl : colorLerp ⟨255, 0, 0, none⟩ ⟨0, 0, 255, none⟩ (1 / 2)
        = ⟨128, 0, 128, some 1⟩ := by
      simp only [colorLerp, jsRound]
      rw [Color.mk.injEq]
      refine ⟨by norm_num, by norm_num, by norm_num, rfl⟩
    rw [hcl]
    decide

theorem C6_witness :
    stringLerp "#ff0000" "#0000ff" (1 / 4)
      = colorToString (colorLerp ⟨255, 0, 0, none⟩ ⟨0, 0, 255, none⟩ (1 / 4))
    ∧ stringLerp "hello" "world" 0 = "hello" := by
  constructor
  · exact C6_string_lerp.1 "#ff0000" "#0000ff" (1 / 4)
      ⟨255, 0, 0, none⟩ ⟨0, 0, 255, none⟩ (by decide) (by decide) rfl rfl
  · have h := C6_string_lerp.2.1 "hello" "world" 0 (Or.inl (by decide))
    rw [h, if_pos (by norm_num)]

/-! ## Claims about color parsing failures -/

/-- The hex grammar of `parseColor`: `#` followed by 3, 6 or 8 hex digits. -/
def hexOk (s : String) : Bool :=
  headIsHash s &&
    ((decide ((hexPart s).length = 3) || decide ((hexPart s).length = 6)
      || decide ((hexPart s).length = 8))
     && (hexPart s).all isHexDigit)

/-- The functional grammar of `parseColor`: the `rgba?(...)` scan matches and
the comma-separated channel list has at least three entries, none `NaN`. -/
def rgbOk (s : String) : Bool :=
  match rgbCapture s.data with
  | some body => decide (3 ≤ (rgbValues body).length) && !((rgbValues body).any JFloat.isNaN)
  | none => false

/-- The named-color grammar of `parseColor`. -/
def namedOk (s : String) : Bool :=
  (namedColorTable.lookup (jsToLower s)).isSome

/-- A successful parse comes from one of the three grammars. -/
theorem parseColor_ok_grammar (s : String) (c : Color)
    (h : parseColor s = Except.ok c) :
    hexOk s = true ∨ rgbOk s = true ∨ namedOk s = true := by
  rw [parseColor] at h
  by_cases hh : headIsHash s
  · left
    rw [if_pos hh] at h
    rw [hexOk, hh, Bool.true_and]
    split at h
    · rename_i hc
      rw [Bool.and_eq_true, decide_eq_true_eq] at hc
      simp [hc.1, hc.2]
    · split at h
      · rename_i hc
        rw [Bool.and_eq_true, decide_eq_true_eq] at hc
        simp [hc.1, hc.2]
      · split at h
        · rename_i hc
          rw [Bool.and_eq_true, decide_eq_true_eq] at hc
          simp [hc.1, hc.2]
        · exact absurd h (by simp)
  · rw [if_neg hh] at h
    split at h
    · rename_i body heq
      right
      left
      simp only [rgbOk, heq]
      split at h
      · exact absurd h (by simp)
      · rename_i hcond
        simp only [Bool.or_eq_true, decide_eq_true_eq, not_or] at hcond
        rw [Bool.and_eq_true, decide_eq_true_eq, Bool.not_eq_true']
        refine ⟨by omega, ?_⟩
        rcases hany : (rgbValues body).any JFloat.isNaN with _ | _
        · rfl
        · exact absurd hany hcond.2
    · rename_i heq
      right
      right
      rw [namedOk]
      split at h
      · rename_i c2 hlk
        simp [hlk]
      · exact absurd h (by simp)

/-- C7: `parseColor` raises an error for every string that fails all three
supported grammars — in particular for `"invalid"` and `"#gg0000"` — while
`stringLerp` catches a parse failure and degrades to the discrete switch
instead of propagating it. -/
theorem C7_parse_failure_handling :
    (∀ s : String, hexOk s = false → rgbOk s = false → namedOk s = false →
      ∃ msg, parseColor s = Except.error msg)
    ∧ (∃ msg, parseColor "invalid" = Except.error msg)
    ∧ (∃ msg, parseColor "#gg0000" = Except.error msg)
    ∧ (∀ (s e : String) (p : ℚ),
        ((∃ msg, parseColor s = Except.error msg)
         ∨ (∃ msg, parseColor e = Except.error msg)) →
        stringLerp s e p = if p < 1 / 2 then s else e) := by
  refine ⟨?_, ⟨_, rfl⟩, ⟨_, rfl⟩, ?_⟩
  · intro s h1 h2 h3
    cases hp : parseColor s with
    | error msg => exact ⟨msg, rfl⟩
    | ok c =>
      rcases parseColor_ok_grammar s c hp with h | h | h
      · rw [h1] at h
        exact absurd h (by simp)
      · rw [h2] at h
        exact absurd h (by simp)
      · rw [h3] at h
        exact absurd h (by simp)
  · intro s e p h
    by_cases hc : isColorString s && isColorString e
    · rcases h with ⟨msg, hmsg⟩ | ⟨msg, hmsg⟩
      · simp only [stringLerp, hc, if_true, hmsg]
      · simp only [stringLerp, hc, if_true, hmsg]
        split
        · rename_i heq1 heq2
          exact absurd heq2 (by simp)
        · rfl
    · rw [Bool.not_eq_true] at hc
      simp [stringLerp, hc]

theorem C7_witness :
    (∃ msg, parseColor "zzz" = Except.error msg)
    ∧ stringLerp "invalid" "red" 0 = "invalid" := by
  constructor
  · exact C7_parse_failure_handling.1 "zzz" (by decide) (by decide) (by decide)
  · have h := C7_parse_failure_handling.2.2.2 "invalid" "red" 0
      (Or.inl ⟨_, rfl⟩)
    rw [h, if_pos (by norm_num)]

end SA
